import Mathlib

/-!
# Bonsai — formal model of the filtering and traversal engine

Shallow embedding of the core of the Bonsai repository
(`src/bonsai/utils.py`, `src/bonsai/processor.py`, `src/bonsai/config.py`):
the gitignore-style pattern matcher, rule-file parsing, the filter policy
(`TreeProcessor.should_ignore`) and the recursive tree builder
(`TreeProcessor.build_tree` / `generate_tree`).

Python strings are modelled as Lean `String` (the code paths exercised here are
ASCII-compatible; Python `str.lower` agrees with `String.toLower` on ASCII).
Python `pathlib.Path` values are modelled by their list of path components
relative to the traversal root, joined with `/` where the code converts a path
to a string. `fnmatch.fnmatch` applies `os.path.normcase` to both arguments,
which is the identity on POSIX; the model is the POSIX (case-sensitive)
behaviour, matching the platform the repository targets.
-/

namespace Bonsai

/-! ## String primitives

Python string operations are modelled through the character list
(`String.data`) with structurally recursive helpers, so that every definition
evaluates inside the kernel (`decide`/`rfl`); the core library versions of
`splitOn`, `endsWith` … are not used because several are compiled by
well-founded recursion and do not reduce definitionally. -/

/-- Python `s.endswith(c)` for a single character `c`. -/
def strEndsWithChar (s : String) (c : Char) : Bool :=
  s.data.getLast? == some c

/-- Python `s.startswith(c)` for a single character `c`. -/
def strStartsWithChar (s : String) (c : Char) : Bool :=
  s.data.head? == some c

/-- Python `c in s` for a single character `c`. -/
def strContainsChar (s : String) (c : Char) : Bool :=
  s.data.contains c

/-- Python `s[1:]`. -/
def strDropFirst (s : String) : String :=
  String.mk s.data.tail

/-- Python `s[:-1]`. -/
def strDropLast (s : String) : String :=
  String.mk s.data.dropLast

/-- Python `s.lower()` (the names reaching it here are ASCII, where
`Char.toLower` and `str.lower` agree). -/
def strLower (s : String) : String :=
  String.mk (s.data.map Char.toLower)

/-- Python `s.strip()` restricted to ASCII whitespace. -/
def strTrim (s : String) : String :=
  String.mk (((s.data.dropWhile Char.isWhitespace).reverse.dropWhile
    Char.isWhitespace).reverse)

/-- Splitting a character list on a separator character; the result always has
at least one (possibly empty) segment, like Python `str.split(sep)`. -/
def splitCharList (sep : Char) : List Char → List (List Char)
  | [] => [[]]
  | c :: rest =>
    let r := splitCharList sep rest
    if c = sep then [] :: r
    else
      match r with
      | seg :: segs => (c :: seg) :: segs
      | [] => [[c]]

/-- Python `s.split('/')`. -/
def splitOnSlash (s : String) : List String :=
  (splitCharList '/' s.data).map String.mk

/-- Splits a character list at the first `']'`, returning the characters before
it and the characters after it; `none` when no `']'` occurs.  Models the
`pat.find(']', j)` scan in CPython `fnmatch.translate`. -/
def scanClassEnd : List Char → Option (List Char × List Char)
  | [] => none
  | c :: rest =>
    if c = ']' then some ([], rest)
    else (scanClassEnd rest).map fun p => (c :: p.1, p.2)

/-- Consumes an optional leading `'!'` (class negation marker). -/
def stripNeg : List Char → Bool × List Char
  | '!' :: rest => (true, rest)
  | l => (false, l)

/-- Consumes an optional leading `']'`, which CPython `fnmatch.translate`
treats as part of the class body rather than its terminator. -/
def stripLeadBracket : List Char → List Char × List Char
  | ']' :: rest => ([']'], rest)
  | l => ([], l)

/-- Models the bracket-extraction of CPython `fnmatch.translate`: given the
characters after an opening `'['`, an optional leading `'!'` marks negation and
an immediately following `']'` belongs to the class body; the body then extends
to the next `']'`.  Returns `(negated, classBody, remainingPattern)`, or `none`
when the bracket is unterminated (in which case `'['` is a literal). -/
def splitClass (l : List Char) : Option (Bool × List Char × List Char) :=
  let n := stripNeg l
  let p := stripLeadBracket n.2
  (scanClassEnd p.2).map fun q => (n.1, p.1 ++ q.1, q.2)

/-- Membership in a bracket character class, with `a-b` ranges interpreted by
code point as in the regular-expression class `fnmatch.translate` produces;
other characters match literally. -/
def classHas : List Char → Char → Bool
  | a :: '-' :: b :: rest, c => (decide (a ≤ c) && decide (c ≤ b)) || classHas rest c
  | a :: rest, c => (a == c) || classHas rest c
  | [], _ => false

/-- Worker for `globMatch`.  The fuel argument makes the recursion structural;
every step shortens `pattern.length + string.length` by at least one (for a
bracket, `splitClass` consumes at least the closing `']'`), so
`globMatch`'s initial fuel is never exhausted. -/
def globMatchF : Nat → List Char → List Char → Bool
  | 0, _, _ => false
  | fuel + 1, ps, s =>
    match ps, s with
    | [], s => s.isEmpty
    | '*' :: ps, [] => globMatchF fuel ps []
    | '*' :: ps, c :: cs => globMatchF fuel ps (c :: cs) || globMatchF fuel ('*' :: ps) cs
    | '?' :: _, [] => false
    | '?' :: ps, _ :: cs => globMatchF fuel ps cs
    | '[' :: ps, s =>
      match splitClass ps with
      | none =>
        match s with
        | c :: cs => (c == '[') && globMatchF fuel ps cs
        | [] => false
      | some (neg, cls, rest) =>
        match s with
        | c :: cs => (neg != classHas cls c) && globMatchF fuel rest cs
        | [] => false
    | _ :: _, [] => false
    | p :: ps, c :: cs => (p == c) && globMatchF fuel ps cs

/-- Shell-style wildcard matching as implemented by CPython `fnmatch`:
`*` matches any run of characters (including `/`), `?` any single character,
`[...]` a character class (`!` negation, code-point ranges, unterminated `[`
literal), anchored at both ends of the string. -/
def globMatch (ps s : List Char) : Bool :=
  globMatchF (ps.length + s.length + 1) ps s

/-- `fnmatch.fnmatch(name, pattern)` on a POSIX platform (where
`os.path.normcase` is the identity). -/
def fnmatchMatch (name pattern : String) : Bool :=
  globMatch pattern.data name.data

/-- `matches_pattern` from `src/bonsai/utils.py`: gitignore-style matching of a
relative path string against one pattern.  Directory-only patterns (trailing
`/`), anchored patterns (leading `/`), patterns containing `/` matched against
the whole path, and bare patterns matched against any path segment. -/
def matches_pattern (path_str : String) (pattern : String) (is_dir : Bool) : Bool :=
  -- Handle directory patterns
  if strEndsWithChar pattern '/' && !is_dir then false
  else
    let pattern := if strEndsWithChar pattern '/' then strDropLast pattern else pattern
    -- Handle absolute patterns (starting with /)
    if strStartsWithChar pattern '/' then
      fnmatchMatch path_str (strDropFirst pattern)
    -- Handle patterns with path separators
    else if strContainsChar pattern '/' then
      fnmatchMatch path_str pattern
    -- Match against any part of the path
    else
      (splitOnSlash path_str).any fun part => fnmatchMatch part pattern

/-! ## Rule-file parsing (`parse_gitignore`) -/

/-- The observable outcome of one attempt to open and iterate a rule file:
`lines` are the lines successfully yielded (in order) before any failure, and
`failed` records whether an exception (open failure, permission error, decode
error, vanish mid-read) was raised after those lines.  A file that cannot even
be opened is `⟨[], true⟩`. -/
structure FileRead where
  lines : List String
  failed : Bool

/-- The line-classification loop of `parse_gitignore` in
`src/bonsai/utils.py`: strip each line, skip blanks and `#` comments, a
leading `!` sends the remainder to the include (override) list, anything else
to the ignore list. -/
def parseGitignoreLines : List String → List String × List String
  | [] => ([], [])
  | line :: rest =>
    let line := strTrim line
    let (ig, inc) := parseGitignoreLines rest
    if line.data.isEmpty || strStartsWithChar line '#' then (ig, inc)
    else if strStartsWithChar line '!' then (ig, strDropFirst line :: inc)
    else (line :: ig, inc)

/-- `parse_gitignore` from `src/bonsai/utils.py`.  The `try`/`except
Exception: pass` around the read loop means an exception at any point is
swallowed and the lists accumulated so far are returned: the output depends
only on the lines yielded before the failure, never on `failed` itself. -/
def parse_gitignore (f : FileRead) : List String × List String :=
  parseGitignoreLines f.lines

/-! ## Configuration and the filter policy -/

/-- The fields of `Config` (`src/bonsai/config.py`) consumed by the core.
`max_depth` is `Option Int` so that the undocumented negative case can be
analysed; `root_path` is kept as the display string used in error output
(`get_root_path`'s `resolve()` is modelled as this fixed string). -/
structure Config where
  root_path : String := "."
  max_depth : Option Int := none
  show_hidden : Bool := false
  use_icons : Bool := false
  show_size : Bool := false
  color_output : Bool := true
  respect_gitignore : Bool := true
  custom_ignore_patterns : List String := []
  force_include_patterns : List String := []

/-- `TreeProcessor` state after `_load_ignore_patterns` ran: the merged ignore
and include pattern collections.  The Python sets are modelled as lists:
`should_ignore` only tests whether *some* member matches, so duplication and
iteration order are irrelevant to every decision. -/
structure TreeProcessor where
  config : Config
  ignore_patterns : List String
  include_patterns : List String

/-- `TreeProcessor._load_ignore_patterns` (`src/bonsai/processor.py`): merge
the parse results of every discovered rule file, then the user's custom
ignore and force-include patterns; with `respect_gitignore` off the rule files
are never read. -/
def loadIgnorePatterns (config : Config) (gitignoreReads : List FileRead) :
    List String × List String :=
  if !config.respect_gitignore then
    (config.custom_ignore_patterns, config.force_include_patterns)
  else
    let parsed := gitignoreReads.map parse_gitignore
    ((parsed.map Prod.fst).flatten ++ config.custom_ignore_patterns,
     (parsed.map Prod.snd).flatten ++ config.force_include_patterns)

/-- A `TreeProcessor` as `__init__` builds it from a configuration and the
rule files discovered by `find_gitignore_files`. -/
def TreeProcessor.init (config : Config) (gitignoreReads : List FileRead) : TreeProcessor :=
  let p := loadIgnorePatterns config gitignoreReads
  ⟨config, p.1, p.2⟩

/-- `TreeProcessor.should_ignore`: hidden-file suppression first, then the
include (override) patterns, then the ignore patterns.  `name` is the entry's
base name (`path.name`), `is_dir` its directory flag, `relative_path` its
path relative to the traversal root. -/
def TreeProcessor.should_ignore (P : TreeProcessor) (name : String) (is_dir : Bool)
    (relative_path : String) : Bool :=
  -- Check if hidden and not showing hidden files
  if !P.config.show_hidden && strStartsWithChar name '.' then true
  -- Check include patterns first (they override ignore patterns)
  else if P.include_patterns.any fun pat => matches_pattern relative_path pat is_dir then false
  -- Check ignore patterns
  else if P.ignore_patterns.any fun pat => matches_pattern relative_path pat is_dir then true
  else false

/-! ## The filesystem model and the tree builder -/

/-- A snapshot of one existing filesystem entry: a regular file with its byte
size, or a directory with the listing `iterdir` would yield (in its
OS-provided enumeration order, before the code sorts it). -/
inductive Entry where
  | file (name : String) (size : Nat)
  | dir (name : String) (children : List Entry)

def Entry.name : Entry → String
  | .file n _ => n
  | .dir n _ => n

def Entry.isDir : Entry → Bool
  | .file _ _ => false
  | .dir _ _ => true

/-- `get_file_size` for an existing entry: `st_size` for files; the builder
stores 0 for directories. -/
def Entry.sizeBytes : Entry → Nat
  | .file _ s => s
  | .dir _ _ => 0

/-- The in-memory tree node built by `TreeProcessor.build_tree`.  `path` is
the node's path relative to the traversal root as a component list (the
Python field holds the absolute `Path`; only the part below the root varies). -/
inductive TreeNode where
  | mk (path : List String) (name : String) (is_dir : Bool) (size : Nat)
      (children : List TreeNode)

def TreeNode.path : TreeNode → List String
  | .mk p _ _ _ _ => p

def TreeNode.name : TreeNode → String
  | .mk _ n _ _ _ => n

def TreeNode.is_dir : TreeNode → Bool
  | .mk _ _ d _ _ => d

def TreeNode.size : TreeNode → Nat
  | .mk _ _ _ s _ => s

def TreeNode.children : TreeNode → List TreeNode
  | .mk _ _ _ _ c => c

/-- Insert `a` into `l` before the first element `b` with `le a b`.  Together
with `sortStable` this is the unique stable sort with respect to a total
preorder `le`, hence agrees with Python's stable `sorted`. -/
def insertStable (le : α → α → Bool) (a : α) : List α → List α
  | [] => [a]
  | b :: bs => if le a b then a :: b :: bs else b :: insertStable le a bs

/-- Stable insertion sort, modelling `sorted(..., key=...)`. -/
def sortStable (le : α → α → Bool) : List α → List α
  | [] => []
  | a :: rest => insertStable le a (sortStable le rest)

/-- The sort key `lambda p: (not p.is_dir(), p.name.lower())` of
`build_tree`, as the `≤` of the lexicographic order Python's tuple
comparison induces: directories (`False`) before files (`True`), then the
lowercased name. -/
def childKeyLe (a b : Entry) : Bool :=
  if (!a.isDir) = (!b.isDir) then decide (strLower a.name ≤ strLower b.name)
  else !(!a.isDir) && !b.isDir

/-- `str(child_path.relative_to(config_root))`: the relative components
joined with `/`. -/
def joinPath : List String → String
  | [] => ""
  | [x] => x
  | x :: rest => x ++ "/" ++ joinPath rest

/-- The depth cutoff of `build_tree`:
`self.config.max_depth is not None and current_depth > self.config.max_depth`. -/
def depthExceeded (config : Config) (current_depth : Nat) : Bool :=
  match config.max_depth with
  | none => false
  | some m => decide ((current_depth : Int) > m)

/-- `TreeProcessor.build_tree`, fuel-indexed so the definition is structurally
recursive (the code's recursion is bounded by the finite filesystem depth;
`build_tree` below supplies enough fuel).  `rel` is the entry's path relative
to the traversal root.  Children are listed in `iterdir` order, sorted with
the stable key sort, filtered through `should_ignore`, and recursed into at
`current_depth + 1`; a recursion that returns `none` is omitted, exactly like
the `if child_node:` guard (a built `TreeNode` is always truthy). -/
def TreeProcessor.buildTreeFuel (P : TreeProcessor) :
    Nat → Entry → List String → Nat → Option TreeNode
  | 0, _, _, _ => none
  | fuel + 1, e, rel, current_depth =>
    -- Check depth limit
    if depthExceeded P.config current_depth then none
    else
      match e with
      | .file n sz => some (.mk rel n false sz [])
      | .dir n cs =>
        let children := (sortStable childKeyLe cs).filterMap fun c =>
          let crel := rel ++ [c.name]
          -- Check if should ignore
          if P.should_ignore c.name c.isDir (joinPath crel) then none
          -- Recursively process child
          else P.buildTreeFuel fuel c crel (current_depth + 1)
        some (.mk rel n true 0 children)

mutual

/-- Structural size of an entry, used as recursion fuel for `build_tree`. -/
def entryFuel : Entry → Nat
  | .file _ _ => 1
  | .dir _ cs => entryListFuel cs + 1

def entryListFuel : List Entry → Nat
  | [] => 0
  | c :: rest => entryFuel c + entryListFuel rest

end

/-- `TreeProcessor.build_tree` on an existing entry: the fuel `entryFuel e`
strictly exceeds the recursion depth, so the fuel clause is never reached. -/
def TreeProcessor.build_tree (P : TreeProcessor) (e : Entry) (rel : List String)
    (current_depth : Nat) : Option TreeNode :=
  P.buildTreeFuel (entryFuel e) e rel current_depth

/-- `build_tree` called on the traversal root: `root_path.exists()` false is
modelled by `none` (the only way a modelled entry can be absent), and
otherwise the recursion starts at relative path `[]` and depth 0. -/
def TreeProcessor.buildTreeRoot (P : TreeProcessor) (root : Option Entry) : Option TreeNode :=
  match root with
  | none => none
  | some e => P.build_tree e [] 0

/-! ## Rendering (`format_tree`, `generate_tree`) -/

/-- The piece of a character list from the last `'.'` (inclusive) to the end,
`none` when no `'.'` occurs. -/
def sufSplit : List Char → Option (List Char)
  | [] => none
  | c :: rest =>
    match sufSplit rest with
    | some s => some s
    | none => if c = '.' then some (c :: rest) else none

/-- `pathlib.PurePath.suffix` of a base name: the part from the last dot,
empty when the dot is the first or last character or absent. -/
def pathSuffix (name : String) : String :=
  let cs := name.data
  match sufSplit cs with
  | none => ""
  | some s => if s.length < cs.length && 1 < s.length then String.mk s else ""

/-- The literal `icon_map` of `get_file_icon`.  The repository file stores
these icon strings in a mojibake (double-encoded) form; the model reproduces
the file's exact character content. -/
def icon_map : List (String × String) :=
  [(".py", "ðŸ"), (".js", "ðŸ“œ"),
   (".ts", "ðŸ“˜"), (".html", "ðŸŒ"),
   (".css", "ðŸŽ¨"), (".json", "ðŸ“‹"),
   (".md", "ðŸ“"), (".txt", "ðŸ“„"),
   (".yml", "âš™ï¸"), (".yaml", "âš™ï¸"),
   (".xml", "ðŸ“°"), (".png", "ðŸ–¼ï¸"),
   (".jpg", "ðŸ–¼ï¸"), (".jpeg", "ðŸ–¼ï¸"),
   (".gif", "ðŸ–¼ï¸"), (".svg", "ðŸ–¼ï¸")]

/-- `get_file_icon` from `src/bonsai/utils.py`, on the directory flag and base
name of an entry (the Python version re-stats the path for `is_dir`). -/
def get_file_icon (is_dir : Bool) (name : String) : String :=
  if is_dir then "ðŸ“"
  else (icon_map.lookup (strLower (pathSuffix name))).getD "ðŸ“„"

/-- The ANSI table of `colorize_output`. -/
def ansiColors : List (String × String) :=
  [("red", "\x1b[91m"), ("green", "\x1b[92m"), ("yellow", "\x1b[93m"),
   ("blue", "\x1b[94m"), ("magenta", "\x1b[95m"), ("cyan", "\x1b[96m"),
   ("white", "\x1b[97m"), ("gray", "\x1b[90m"), ("reset", "\x1b[0m")]

/-- `colorize_output` from `src/bonsai/utils.py`. -/
def colorize_output (text color : String) : String :=
  ((ansiColors.lookup color).getD "") ++ text ++ "\x1b[0m"

/-- Models the Python float format with one decimal place (rendering of the
binary double rounded to one decimal; ties are irrelevant to every claim). -/
def fmtFloat1 (x : Float) : String :=
  let n := (x * 10.0 + 0.5).floor.toUInt64.toNat
  toString (n / 10) ++ "." ++ toString (n % 10)

/-- The unit loop of `format_file_size`. -/
def formatSizeLoop (x : Float) : List String → String
  | [] => fmtFloat1 x ++ "PB"
  | u :: us => if x < 1024.0 then fmtFloat1 x ++ u else formatSizeLoop (x / 1024.0) us

/-- `format_file_size` from `src/bonsai/utils.py`. -/
def format_file_size (size : Nat) : String :=
  formatSizeLoop (Float.ofNat size) ["B", "KB", "MB", "GB", "TB"]

mutual

/-- Structural size of a built node, used as recursion fuel for
`format_tree`. -/
def nodeFuel : TreeNode → Nat
  | .mk _ _ _ _ cs => nodeListFuel cs + 1

def nodeListFuel : List TreeNode → Nat
  | [] => 0
  | c :: rest => nodeFuel c + nodeListFuel rest

end

/-- `TreeProcessor.format_tree`, fuel-indexed: one display line for the node
(connector glyph, optional icon, optional size, optional color), then the
recursively rendered children, the last child flagged for the `└──`
connector. -/
def TreeProcessor.formatTreeFuel (P : TreeProcessor) :
    Nat → TreeNode → String → Bool → List String
  | 0, _, _, _ => []
  | fuel + 1, node, pfx, is_last =>
    let connector := if is_last then "└── " else "├── "
    let display0 :=
      if node.is_dir then connector ++ node.name ++ "/" else connector ++ node.name
    -- Add icon if requested
    let display1 :=
      if P.config.use_icons then
        let icon := get_file_icon node.is_dir node.name
        if node.is_dir then connector ++ icon ++ " " ++ node.name ++ "/"
        else connector ++ icon ++ " " ++ node.name
      else display0
    -- Add size if requested
    let display2 :=
      if P.config.show_size && !node.is_dir then
        display1 ++ " (" ++ format_file_size node.size ++ ")"
      else display1
    -- Color
    let display3 :=
      if P.config.color_output then
        if node.is_dir then colorize_output display2 "blue"
        else colorize_output display2 "white"
      else display2
    let childPfx := pfx ++ (if is_last then "    " else "│   ")
    let n := node.children.length
    (pfx ++ display3) ::
      (node.children.enum.map fun ic =>
        P.formatTreeFuel fuel ic.2 childPfx (decide (ic.1 = n - 1))).flatten

/-- `TreeProcessor.format_tree` with sufficient fuel. -/
def TreeProcessor.format_tree (P : TreeProcessor) (node : TreeNode) (pfx : String)
    (is_last : Bool) : List String :=
  P.formatTreeFuel (nodeFuel node) node pfx is_last

/-- `TreeProcessor.generate_tree`: build from the configured root, render the
tree, or produce the single error line when no tree was built (a built
`TreeNode` is always truthy, so `if not tree` is exactly the `None` case). -/
def TreeProcessor.generate_tree (P : TreeProcessor) (root : Option Entry) : List String :=
  match P.buildTreeRoot root with
  | none => ["Error: Could not access " ++ P.config.root_path]
  | some tree => P.format_tree tree "" true

/-! ## Specification-side definitions and invariant predicates -/

/-- Branches (2)–(4) of the claimed `matches_pattern` contract, written from
the specification's words: anchored match of the whole path, whole-path match
for patterns containing a separator, else any-segment match. -/
def matchesPatternSpecRest (p s : String) : Bool :=
  if strStartsWithChar s '/' then fnmatchMatch p (strDropFirst s)
  else if strContainsChar s '/' then fnmatchMatch p s
  else (splitOnSlash p).any fun seg => fnmatchMatch seg s

/-- The four-branch matcher exactly as the specification words it: a trailing
`/` restricts to directories and is stripped before the remaining branches
run. -/
def matchesPatternSpec (p s : String) (d : Bool) : Bool :=
  if strEndsWithChar s '/' then d && matchesPatternSpecRest p (strDropLast s)
  else matchesPatternSpecRest p s

/-- The §3 ordering relation on built nodes: directories before files, then
case-insensitively alphabetical names. -/
def nodeKeyLe (a b : TreeNode) : Bool :=
  if (!a.is_dir) = (!b.is_dir) then decide (strLower a.name ≤ strLower b.name)
  else !(!a.is_dir) && !b.is_dir

/-- Every children sequence in the tree is sorted by the
(is-file, case-insensitive name) key. -/
inductive SortedByKey : TreeNode → Prop
  | node (path : List String) (name : String) (is_dir : Bool) (size : Nat)
      (children : List TreeNode)
      (hpair : children.Pairwise fun a b => nodeKeyLe a b = true)
      (hrec : ∀ c ∈ children, SortedByKey c) :
      SortedByKey (.mk path name is_dir size children)

/-- Every node below the root passed the filter: its `should_ignore` call on
the relative path used at build time returned `false`, recursively.  The
parameter is the root node's own relative path. -/
inductive Accepted (P : TreeProcessor) : List String → TreeNode → Prop
  | node (rel path : List String) (name : String) (is_dir : Bool) (size : Nat)
      (children : List TreeNode)
      (hacc : ∀ c ∈ children,
        P.should_ignore c.name c.is_dir (joinPath (rel ++ [c.name])) = false)
      (hrec : ∀ c ∈ children, Accepted P (rel ++ [c.name]) c) :
      Accepted P rel (.mk path name is_dir size children)

mutual

/-- Structural identity of two built trees: same names, same is-directory
flags, same sizes, and the same order of children at every node. -/
def structEq : TreeNode → TreeNode → Bool
  | .mk _ n d s cs, .mk _ n' d' s' cs' =>
    (n == n') && (d == d') && (s == s') && structEqList cs cs'

def structEqList : List TreeNode → List TreeNode → Bool
  | [], [] => true
  | a :: as1, b :: bs1 => structEq a b && structEqList as1 bs1
  | _, _ => false

end

/-- Structural identity lifted to the optional result of a build. -/
def optionStructEq : Option TreeNode → Option TreeNode → Bool
  | none, none => true
  | some a, some b => structEq a b
  | _, _ => false

/-! ## Concrete fixtures used by witnesses and counterexamples -/

/-- A processor with all defaults and no rule files. -/
def plainProc : TreeProcessor := TreeProcessor.init {} []

/-- A processor whose maximum depth is 0. -/
def depth0Proc : TreeProcessor := TreeProcessor.init { max_depth := some 0 } []

/-- A processor whose maximum depth is 1. -/
def depth1Proc : TreeProcessor := TreeProcessor.init { max_depth := some 1 } []

/-- A processor with the undocumented negative maximum depth. -/
def negDepthProc : TreeProcessor :=
  TreeProcessor.init { root_path := "/r", max_depth := some (-1) } []

/-- The spec's override example: `*.log` ignored, `important.log` forced. -/
def logProc : TreeProcessor :=
  TreeProcessor.init
    { custom_ignore_patterns := ["*.log"], force_include_patterns := ["important.log"] } []

/-- The spec's hidden-file example: override pattern `.env*` present. -/
def envProc : TreeProcessor :=
  TreeProcessor.init { force_include_patterns := [".env*"] } []

/-- A root directory holding one subdirectory which holds one file. -/
def subdirRoot : Entry := .dir "root" [.dir "sub" [.file "f.txt" 3]]

/-- The spec's ordering example: file `a_file.txt` and directory `z_dir`. -/
def orderEntry : Entry := .dir "r" [.file "a_file.txt" 1, .dir "z_dir" []]

/-- A root whose own name would trip the hidden-file suppression. -/
def hiddenRootEntry : Entry := .dir ".git" [.file "cfg" 1]

end Bonsai

namespace Bonsai

/-! # Theorems -/

/-- Claim C1: for every relative path `p`, pattern `s` and directory flag `d`,
`matches_pattern` evaluates exactly the four branches in the claimed order:
trailing-`/` directory restriction with the slash stripped before further
matching, then the leading-`/` anchored whole-path match, then the whole-path
match for patterns containing `/`, else the any-segment match. -/
theorem matches_pattern_four_branch_order (p s : String) (d : Bool) :
    matches_pattern p s d = matchesPatternSpec p s d := by
  unfold matches_pattern matchesPatternSpec matchesPatternSpecRest
  by_cases he : strEndsWithChar s '/'
  · cases d <;> simp [he]
  · simp [he]

/-- Claim C2, counterexample: the claimed table entry
"`src/*.py` does not match `src/nested/test.py`" is false — `fnmatch`'s `*`
also matches `/`, so the pattern does match the nested path. -/
theorem matches_pattern_table_cex :
    matches_pattern "src/nested/test.py" "src/*.py" false = true := by decide

/-- Claim C2, amended: the pattern-matching table with the one corrected
entry: `src/*.py` also matches `src/nested/test.py` (shell-style `*` crosses
`/` in this dialect); all other rows hold as claimed, and a bare
`node_modules` pattern matches any relative path with a `node_modules`
segment at any depth. -/
theorem matches_pattern_table_amended :
    matches_pattern "build" "build/" true = true ∧
    matches_pattern "build" "build/" false = false ∧
    matches_pattern "config.json" "/config.json" false = true ∧
    matches_pattern "src/config.json" "/config.json" false = false ∧
    matches_pattern "src/test.py" "src/*.py" false = true ∧
    matches_pattern "src/nested/test.py" "src/*.py" false = true ∧
    matches_pattern "test.py" "src/*.py" false = false ∧
    ∀ (p : String) (d : Bool), "node_modules" ∈ splitOnSlash p →
      matches_pattern p "node_modules" d = true := by
  refine ⟨by decide, by decide, by decide, by decide, by decide, by decide, by decide, ?_⟩
  intro p d hmem
  have hform : matches_pattern p "node_modules" d =
      (splitOnSlash p).any fun part => fnmatchMatch part "node_modules" := by
    unfold matches_pattern
    norm_num [show strEndsWithChar "node_modules" '/' = false from by decide,
      show strStartsWithChar "node_modules" '/' = false from by decide,
      show strContainsChar "node_modules" '/' = false from by decide]
  rw [hform, List.any_eq_true]
  exact ⟨"node_modules", hmem, by decide⟩

/-- Claim C2, witness for the amended table's quantified row. -/
theorem matches_pattern_table_witness :
    matches_pattern "a/node_modules/b" "node_modules" false = true :=
  matches_pattern_table_amended.2.2.2.2.2.2.2 "a/node_modules/b" false (by decide)

/-- Claim C3: when the hidden-file suppression does not fire, a matching
override (include) rule forces visibility even when ignore rules also match;
with no matching override, a matching ignore rule hides; with neither, the
entry stays visible. -/
theorem should_ignore_rule_precedence (P : TreeProcessor) (name : String) (is_dir : Bool)
    (rel : String)
    (hnotHidden : (!P.config.show_hidden && strStartsWithChar name '.') = false) :
    ((∃ pat ∈ P.include_patterns, matches_pattern rel pat is_dir = true) →
      P.should_ignore name is_dir rel = false) ∧
    ((∀ pat ∈ P.include_patterns, matches_pattern rel pat is_dir = false) →
      (∃ pat ∈ P.ignore_patterns, matches_pattern rel pat is_dir = true) →
      P.should_ignore name is_dir rel = true) ∧
    ((∀ pat ∈ P.include_patterns, matches_pattern rel pat is_dir = false) →
      (∀ pat ∈ P.ignore_patterns, matches_pattern rel pat is_dir = false) →
      P.should_ignore name is_dir rel = false) := by
  unfold TreeProcessor.should_ignore
  rw [hnotHidden]
  refine ⟨?_, ?_, ?_⟩
  · intro hex
    rw [List.any_eq_true.mpr (by simpa using hex)]
    simp
  · intro hall hex
    rw [List.any_eq_false.mpr (by simpa using hall), List.any_eq_true.mpr (by simpa using hex)]
    simp
  · intro hall1 hall2
    rw [List.any_eq_false.mpr (by simpa using hall1), List.any_eq_false.mpr (by simpa using hall2)]
    simp

/-- Claim C3, witness: with ignore rule `*.log` and override `important.log`,
`debug.log` is hidden and `important.log` is visible. -/
theorem should_ignore_rule_precedence_witness :
    logProc.should_ignore "debug.log" false "debug.log" = true ∧
    logProc.should_ignore "important.log" false "important.log" = false :=
  ⟨(should_ignore_rule_precedence logProc "debug.log" false "debug.log" (by decide)).2.1
      (by decide) (by decide),
   (should_ignore_rule_precedence logProc "important.log" false "important.log" (by decide)).1
      (by decide)⟩

/-- Claim C4: with show-hidden disabled, every entry whose base name starts
with `.` is hidden, whatever the ignore and override pattern sets contain —
hidden-file suppression precedes and cannot be overridden by pattern rules. -/
theorem should_ignore_hidden_first (P : TreeProcessor) (name : String) (is_dir : Bool)
    (rel : String) (hsh : P.config.show_hidden = false)
    (hdot : strStartsWithChar name '.' = true) :
    P.should_ignore name is_dir rel = true := by
  unfold TreeProcessor.should_ignore
  rw [hsh, hdot]
  simp

/-- Claim C4, witness: show-hidden false and override pattern `.env*` present,
yet `.env` is still hidden. -/
theorem should_ignore_hidden_first_witness :
    envProc.should_ignore ".env" false ".env" = true :=
  should_ignore_hidden_first envProc ".env" false ".env" rfl (by decide)

/-- Claim C6, counterexample: a rule file that fails mid-read after yielding
the line `*.log` contributes that rule — not zero rules as claimed. -/
theorem parse_gitignore_midfail_cex :
    parse_gitignore ⟨["*.log"], true⟩ ≠ (([] : List String), ([] : List String)) := by
  decide

/-- Claim C6, amended: `parse_gitignore` never raises and its output is exactly
the classification of the lines yielded before any failure (so a file that
fails at open — no lines — contributes zero rules, while a mid-file failure
contributes the rules read up to the failure), and loading continues with the
remaining files: a file unreadable at open leaves the merged sets unchanged. -/
theorem parse_gitignore_failure_amended :
    (∀ ls : List String, parse_gitignore ⟨ls, true⟩ = parse_gitignore ⟨ls, false⟩) ∧
    parse_gitignore ⟨[], true⟩ = (([] : List String), ([] : List String)) ∧
    (∀ (cfg : Config) (pre post : List FileRead), cfg.respect_gitignore = true →
      loadIgnorePatterns cfg (pre ++ ⟨[], true⟩ :: post) = loadIgnorePatterns cfg (pre ++ post)) := by
  refine ⟨fun ls => rfl, rfl, ?_⟩
  intro cfg pre post hresp
  unfold loadIgnorePatterns
  rw [hresp]
  simp [parse_gitignore, parseGitignoreLines]

/-- Claim C6, witness: an open-failed rule file in the middle of the
discovered list contributes nothing to the merged sets. -/
theorem parse_gitignore_failure_witness :
    loadIgnorePatterns { respect_gitignore := true }
        [⟨["a.log"], false⟩, ⟨[], true⟩, ⟨["!keep.log"], false⟩] =
      loadIgnorePatterns { respect_gitignore := true }
        [⟨["a.log"], false⟩, ⟨["!keep.log"], false⟩] :=
  parse_gitignore_failure_amended.2.2 _ [⟨["a.log"], false⟩] [⟨["!keep.log"], false⟩] rfl

/-- Claim C5, counterexample: with max-depth 0, building the
root-with-subdirectory-with-file tree yields a root whose children sequence is
empty — the subdirectory node is not present at all. -/
theorem depth0_prunes_subdir_cex :
    (depth0Proc.build_tree subdirRoot [] 0).map TreeNode.children = some [] := rfl

/-- Claim C5, amended: with max-depth 0 the depth check prunes the depth-1
subdirectory itself, leaving the root with an empty children sequence; the
claimed shape — subdirectory node present with an empty children sequence —
arises with max-depth 1, where the depth-2 file is pruned instead. -/
theorem depth_bound_amended :
    depth0Proc.build_tree subdirRoot [] 0 = some (.mk [] "root" true 0 []) ∧
    depth1Proc.build_tree subdirRoot [] 0 =
      some (.mk [] "root" true 0 [.mk ["sub"] "sub" true 0 []]) :=
  ⟨rfl, rfl⟩

/-! ## Helper lemmas: the stable sort and the build invariants -/

theorem mem_insertStable (le : α → α → Bool) (a x : α) :
    ∀ l : List α, x ∈ insertStable le a l ↔ x = a ∨ x ∈ l := by
  intro l
  induction l with
  | nil => simp [insertStable]
  | cons b bs ih =>
    simp only [insertStable]
    split
    · simp [List.mem_cons]
    · simp only [List.mem_cons, ih]
      tauto

theorem pairwise_insertStable (le : α → α → Bool)
    (htot : ∀ a b, (le a b || le b a) = true)
    (htrans : ∀ a b c, le a b = true → le b c = true → le a c = true)
    (a : α) : ∀ l : List α, l.Pairwise (le · · = true) →
      (insertStable le a l).Pairwise (le · · = true) := by
  intro l
  induction l with
  | nil => intro _; simp [insertStable]
  | cons b bs ih =>
    intro hp
    rw [List.pairwise_cons] at hp
    obtain ⟨hb, hbs⟩ := hp
    simp only [insertStable]
    split
    case isTrue hab =>
      rw [List.pairwise_cons]
      refine ⟨?_, List.pairwise_cons.mpr ⟨hb, hbs⟩⟩
      intro x hx
      rcases List.mem_cons.mp hx with hxa | hx
      · rw [hxa]; exact hab
      · exact htrans a b x hab (hb x hx)
    case isFalse hab =>
      rw [List.pairwise_cons]
      refine ⟨?_, ih hbs⟩
      intro x hx
      rcases (mem_insertStable le a x bs).mp hx with hxa | hx
      · have hor := htot a b
        rcases Bool.or_eq_true_iff.mp hor with h1 | h1
        · exact absurd h1 hab
        · rw [hxa]; exact h1
      · exact hb x hx

theorem pairwise_sortStable (le : α → α → Bool)
    (htot : ∀ a b, (le a b || le b a) = true)
    (htrans : ∀ a b c, le a b = true → le b c = true → le a c = true) :
    ∀ l : List α, (sortStable le l).Pairwise (le · · = true) := by
  intro l
  induction l with
  | nil => simp [sortStable]
  | cons a rest ih => exact pairwise_insertStable le htot htrans a _ ih

theorem childKeyLe_total (a b : Entry) : (childKeyLe a b || childKeyLe b a) = true := by
  unfold childKeyLe
  cases ha : a.isDir <;> cases hb : b.isDir <;>
    simp <;> exact le_total _ _

theorem childKeyLe_trans (a b c : Entry) :
    childKeyLe a b = true → childKeyLe b c = true → childKeyLe a c = true := by
  unfold childKeyLe
  cases ha : a.isDir <;> cases hb : b.isDir <;> cases hc : c.isDir <;> simp <;>
    (intro h1 h2; exact le_trans h1 h2)

theorem pairwise_filterMap_transfer {α β : Type} {R : α → α → Prop} {S : β → β → Prop}
    (f : α → Option β)
    (h : ∀ a b x y, R a b → f a = some x → f b = some y → S x y) :
    ∀ l : List α, l.Pairwise R → (l.filterMap f).Pairwise S := by
  intro l
  induction l with
  | nil => intro _; simp
  | cons a rest ih =>
    intro hp
    rw [List.pairwise_cons] at hp
    obtain ⟨ha, hrest⟩ := hp
    rw [List.filterMap_cons]
    cases hfa : f a with
    | none => exact ih hrest
    | some x =>
      rw [List.pairwise_cons]
      refine ⟨?_, ih hrest⟩
      intro y hy
      obtain ⟨b, hbmem, hfb⟩ := List.mem_filterMap.mp hy
      exact h a b x y (ha b hbmem) hfa hfb

theorem buildTreeFuel_shape (P : TreeProcessor) (fuel : Nat) (e : Entry)
    (rel : List String) (depth : Nat) (t : TreeNode)
    (h : P.buildTreeFuel fuel e rel depth = some t) :
    t.name = e.name ∧ t.is_dir = e.isDir ∧ t.path = rel := by
  cases fuel with
  | zero => simp [TreeProcessor.buildTreeFuel] at h
  | succ fuel =>
    unfold TreeProcessor.buildTreeFuel at h
    split at h
    · simp at h
    · cases e with
      | file n sz =>
        injection h with h
        subst h
        exact ⟨rfl, rfl, rfl⟩
      | dir n cs =>
        dsimp only at h
        injection h with h
        subst h
        exact ⟨rfl, rfl, rfl⟩

theorem buildTreeFuel_accepted (P : TreeProcessor) :
    ∀ (fuel : Nat) (e : Entry) (rel : List String) (depth : Nat) (t : TreeNode),
      P.buildTreeFuel fuel e rel depth = some t → Accepted P rel t := by
  intro fuel
  induction fuel with
  | zero => intro e rel depth t h; simp [TreeProcessor.buildTreeFuel] at h
  | succ fuel ih =>
    intro e rel depth t h
    unfold TreeProcessor.buildTreeFuel at h
    split at h
    · simp at h
    · cases e with
      | file n sz =>
        injection h with h
        subst h
        exact Accepted.node rel rel n false sz [] (by simp) (by simp)
      | dir n cs =>
        dsimp only at h
        injection h with h
        subst h
        refine Accepted.node rel rel n true 0 _ ?_ ?_
        · intro c hc
          obtain ⟨a, hamem, hfa⟩ := List.mem_filterMap.mp hc
          split at hfa
          · simp at hfa
          case isFalse hig =>
            obtain ⟨hn, hd, -⟩ := buildTreeFuel_shape P fuel a (rel ++ [a.name]) (depth + 1) c hfa
            rw [hn, hd]
            simpa using hig
        · intro c hc
          obtain ⟨a, hamem, hfa⟩ := List.mem_filterMap.mp hc
          split at hfa
          · simp at hfa
          · obtain ⟨hn, -, -⟩ := buildTreeFuel_shape P fuel a (rel ++ [a.name]) (depth + 1) c hfa
            rw [hn]
            exact ih a (rel ++ [a.name]) (depth + 1) c hfa

theorem buildTreeFuel_sorted (P : TreeProcessor) :
    ∀ (fuel : Nat) (e : Entry) (rel : List String) (depth : Nat) (t : TreeNode),
      P.buildTreeFuel fuel e rel depth = some t → SortedByKey t := by
  intro fuel
  induction fuel with
  | zero => intro e rel depth t h; simp [TreeProcessor.buildTreeFuel] at h
  | succ fuel ih =>
    intro e rel depth t h
    unfold TreeProcessor.buildTreeFuel at h
    split at h
    · simp at h
    · cases e with
      | file n sz =>
        injection h with h
        subst h
        exact SortedByKey.node rel n false sz [] (by simp) (by simp)
      | dir n cs =>
        dsimp only at h
        injection h with h
        subst h
        refine SortedByKey.node rel n true 0 _ ?_ ?_
        · refine pairwise_filterMap_transfer _ ?_ _
            (pairwise_sortStable childKeyLe childKeyLe_total childKeyLe_trans cs)
          intro a b x y hR hfa hfb
          split at hfa
          · simp at hfa
          · split at hfb
            · simp at hfb
            · obtain ⟨hna, hda, -⟩ :=
                buildTreeFuel_shape P fuel a (rel ++ [a.name]) (depth + 1) x hfa
              obtain ⟨hnb, hdb, -⟩ :=
                buildTreeFuel_shape P fuel b (rel ++ [b.name]) (depth + 1) y hfb
              unfold nodeKeyLe
              unfold childKeyLe at hR
              rw [hna, hda, hnb, hdb]
              exact hR
        · intro c hc
          obtain ⟨a, hamem, hfa⟩ := List.mem_filterMap.mp hc
          split at hfa
          · simp at hfa
          · exact ih a (rel ++ [a.name]) (depth + 1) c hfa

theorem structEq_refl_fuel : ∀ n : Nat,
    (∀ t : TreeNode, nodeFuel t ≤ n → structEq t t = true) ∧
    (∀ cs : List TreeNode, nodeListFuel cs ≤ n → structEqList cs cs = true) := by
  intro n
  induction n with
  | zero =>
    constructor
    · intro t ht
      cases t with
      | mk p nm d s cs => simp [nodeFuel] at ht
    · intro cs hcs
      cases cs with
      | nil => rfl
      | cons c rest =>
        cases c with
        | mk p nm d s cs' => simp [nodeListFuel, nodeFuel] at hcs
  | succ n ih =>
    constructor
    · intro t ht
      cases t with
      | mk p nm d s cs =>
        simp only [structEq, beq_self_eq_true, Bool.true_and]
        apply ih.2
        simp only [nodeFuel] at ht
        omega
    · intro cs
      induction cs with
      | nil => intro _; rfl
      | cons c rest ihrest =>
        intro hcs
        simp only [structEqList, Bool.and_eq_true]
        constructor
        · cases c with
          | mk p nm d s cs' =>
            simp only [structEq, beq_self_eq_true, Bool.true_and]
            apply ih.2
            simp only [nodeListFuel, nodeFuel] at hcs
            omega
        · apply ihrest
          simp only [nodeListFuel] at hcs ⊢
          omega

theorem structEq_refl (t : TreeNode) : structEq t t = true :=
  (structEq_refl_fuel (nodeFuel t)).1 t le_rfl

/-- Claim C7: in every tree returned by `build_tree`, the children sequence of
every node is sorted by the (is-file, case-insensitive name) key: directories
before files, case-insensitively alphabetical within each group. -/
theorem build_tree_children_sorted (P : TreeProcessor) (e : Entry) (rel : List String)
    (depth : Nat) (t : TreeNode) (h : P.build_tree e rel depth = some t) :
    SortedByKey t :=
  buildTreeFuel_sorted P (entryFuel e) e rel depth t h

/-- Claim C7, witness: a parent holding directory `z_dir` and file
`a_file.txt` builds with `z_dir` first, and the result is sorted. -/
theorem build_tree_children_sorted_witness :
    SortedByKey (.mk [] "r" true 0
      [.mk ["z_dir"] "z_dir" true 0 [], .mk ["a_file.txt"] "a_file.txt" false 1 []]) :=
  build_tree_children_sorted plainProc orderEntry [] 0 _ rfl

/-- Claim C8: every node below the root of a built tree passed the
`should_ignore` check on its build-time relative path, while the root node is
constructed without ever being submitted to the filter — it is built even when
its own name trips the hidden-file suppression or an ignore rule. -/
theorem build_tree_filter_invariant :
    (∀ (P : TreeProcessor) (e : Entry) (rel : List String) (depth : Nat) (t : TreeNode),
      P.build_tree e rel depth = some t → Accepted P rel t) ∧
    (∀ (P : TreeProcessor) (e : Entry) (rel : List String) (depth : Nat),
      depthExceeded P.config depth = false →
      P.should_ignore e.name e.isDir (joinPath rel) = true →
      (P.build_tree e rel depth).isSome = true) := by
  constructor
  · intro P e rel depth t h
    exact buildTreeFuel_accepted P (entryFuel e) e rel depth t h
  · intro P e rel depth hd _
    unfold TreeProcessor.build_tree
    cases e with
    | file n sz => simp [entryFuel, TreeProcessor.buildTreeFuel, hd]
    | dir n cs => simp [entryFuel, TreeProcessor.buildTreeFuel, hd]

/-- Claim C8, witness: the accepted-invariant at a concrete build, and a root
named `.git` (hidden, hence `should_ignore` true for it) that is still built. -/
theorem build_tree_filter_invariant_witness :
    Accepted plainProc [] (.mk [] "r" true 0
      [.mk ["z_dir"] "z_dir" true 0 [], .mk ["a_file.txt"] "a_file.txt" false 1 []]) ∧
    (plainProc.build_tree hiddenRootEntry [] 0).isSome = true :=
  ⟨build_tree_filter_invariant.1 plainProc orderEntry [] 0 _ rfl,
   build_tree_filter_invariant.2 plainProc hiddenRootEntry [] 0 rfl (by decide)⟩

/-- Claim C9: two invocations of `build_tree` on the same configuration and
the same filesystem snapshot produce structurally identical trees — the same
names, directory flags, sizes and child order; in the model the builder is a
pure function of the snapshot, so the two results coincide structurally. -/
theorem build_tree_deterministic (P : TreeProcessor) (e : Entry) (rel : List String)
    (depth : Nat) :
    optionStructEq (P.build_tree e rel depth) (P.build_tree e rel depth) = true := by
  cases h : P.build_tree e rel depth with
  | none => rfl
  | some t => simpa [optionStructEq] using structEq_refl t

/-- Claim C10: a negative configured maximum depth makes `build_tree` at depth
0 return absent for every path (the root itself already exceeds the bound),
so `generate_tree` degenerates to the single `Could not access` error line. -/
theorem negative_max_depth_absent (P : TreeProcessor) (m : Int)
    (hm : P.config.max_depth = some m) (hneg : m < 0) :
    (∀ (e : Entry) (rel : List String), P.build_tree e rel 0 = none) ∧
    (∀ root : Option Entry,
      P.generate_tree root = ["Error: Could not access " ++ P.config.root_path]) := by
  have hde : depthExceeded P.config 0 = true := by
    unfold depthExceeded
    rw [hm]
    have h0 : ((0 : Nat) : Int) > m := by omega
    simpa using h0
  have hnone : ∀ (e : Entry) (rel : List String), P.build_tree e rel 0 = none := by
    intro e rel
    unfold TreeProcessor.build_tree
    cases e with
    | file n sz => simp [entryFuel, TreeProcessor.buildTreeFuel, hde]
    | dir n cs => simp [entryFuel, TreeProcessor.buildTreeFuel, hde]
  refine ⟨hnone, ?_⟩
  intro root
  have hroot : P.buildTreeRoot root = none := by
    cases root with
    | none => rfl
    | some e => exact hnone e []
  unfold TreeProcessor.generate_tree
  rw [hroot]

/-- Claim C10, witness: max-depth −1 on an existing, readable root yields the
error line. -/
theorem negative_max_depth_absent_witness :
    negDepthProc.generate_tree (some subdirRoot) = ["Error: Could not access /r"] :=
  (negative_max_depth_absent negDepthProc (-1) rfl (by decide)).2 (some subdirRoot)

end Bonsai
